import Mathlib

/-!
Shallow embedding of `libsql_client/sqlite_driver.py` (the sqlite driver of
the libsql client): the `_batch` function and the data it manipulates.

The sqlite3 engine itself is external to the repository; it is modelled as an
abstract `Engine` record supplying `rollback` and `execute` (returning a
cursor), mirroring exactly the operations `_batch` invokes on the connection.
Errors raised by the engine (`sqlite3.DatabaseError`) are the `.error` case of
an `Except String`, carrying `str(e)`.

Python-level behaviour that `_batch` relies on and that we model explicitly:
  * `cursor.description` is `None` for statements that return no rows
    (e.g. CREATE, INSERT); for row-returning statements it is the tuple of
    column descriptors, whose first component is the column name.  We model it
    as `Option (List String)` carrying just the names (`descr[0]`).
  * iterating over `None` (`tuple(descr[0] for descr in cursor.description)`
    with `description = None`) raises `TypeError`, which is not an
    `sqlite3.DatabaseError` and therefore escapes the `except` clause.
  * the dict comprehension `{name: idx for (idx, name) in enumerate(columns)}`
    inserts keys in enumeration order, a later duplicate key overwriting the
    value of an earlier one; lookup returns the value of the last insertion.

On an exception the Python function returns nothing; correspondingly the
embedded `_batch` returns `.error` and the (possibly mutated) connection state
is not part of the result.
-/

set_option autoImplicit false

namespace SqliteDriver

universe u

variable {σ : Type u} {V : Type}

/-- A raw statement: SQL text plus bound parameter values (`_RawStmt`). -/
structure RawStmt (V : Type) where
  sql : String
  params : List V
  deriving Repr, DecidableEq

/-- The cursor returned by `conn.execute`: `description` is `none` for
statements that return no rows, otherwise the list of column names
(`descr[0]` of each descriptor); `rows` is what `fetchall()` yields. -/
structure Cursor (V : Type) where
  description : Option (List String)
  rows : List (List V)
  deriving Repr, DecidableEq

/-- The external sqlite3 engine, as seen through the two operations `_batch`
performs on the connection.  The state `σ` is the engine-side state of the
connection handle; a `.error msg` models a raised `sqlite3.DatabaseError e`
with `str(e) = msg`. -/
structure Engine (σ : Type u) (V : Type) where
  rollback : σ → Except String σ
  execute : σ → RawStmt V → Except String (σ × Cursor V)

/-- A row (`Row(column_idxs, row)`): the shared name-to-index dict plus the
tuple of values.  The dict is kept in insertion order; `dictLookup` below
gives it Python-dict lookup semantics (last insertion of a key wins). -/
structure Row (V : Type) where
  column_idxs : List (String × Nat)
  values : List V
  deriving Repr, DecidableEq

/-- A result set (`ResultSet(columns, rows)`). -/
structure ResultSet (V : Type) where
  columns : List String
  rows : List (Row V)
  deriving Repr, DecidableEq

/-- The ways the embedded `_batch` can fail:
  * `clientResponseError msg` — the raised `ClientResponseError(str(e))` when
    `conn.execute` raises an `sqlite3.DatabaseError e`;
  * `databaseError msg` — an `sqlite3.DatabaseError` raised outside the
    `try` block (only `conn.rollback()` can do this) and therefore propagated
    unwrapped;
  * `typeError` — the `TypeError` raised by iterating over a `None`
    `cursor.description`, also propagated unwrapped. -/
inductive DriverError where
  | clientResponseError (msg : String)
  | databaseError (msg : String)
  | typeError
  deriving Repr, DecidableEq

/-- Python dict lookup on an insertion-ordered association list: the value of
the LAST insertion of the key wins, modelling dict-comprehension overwrite
semantics. -/
def dictLookup : List (String × Nat) → String → Option Nat
  | [], _ => none
  | (k, v) :: rest, key =>
    match dictLookup rest key with
    | some r => some r
    | none => if key = k then some v else none

/-- The dict `{name: idx for (idx, name) in enumerate(columns)}`, kept as the
insertion-ordered list of (name, idx) pairs. -/
def columnIdxs (columns : List String) : List (String × Nat) :=
  (columns.enum).map (fun p => (p.2, p.1))

/-- The per-statement result processing of `_batch`: read the column names
from the cursor description (raising `TypeError` if it is `None`), build the
shared name-to-index dict, wrap each fetched row, and package the
`ResultSet`. -/
def processCursor (cur : Cursor V) : Except DriverError (ResultSet V) :=
  match cur.description with
  | none => .error .typeError
  | some columns =>
    let column_idxs := columnIdxs columns
    let rows := cur.rows.map (fun r => Row.mk column_idxs r)
    .ok (ResultSet.mk columns rows)

/-- The statement loop of `_batch`: execute each statement in order, wrapping
an engine `DatabaseError` from `execute` into `clientResponseError`, and
collect the result sets in order.  Returns the final engine state together
with the result sets. -/
def execStmts (eng : Engine σ V) : σ → List (RawStmt V) → Except DriverError (σ × List (ResultSet V))
  | s, [] => .ok (s, [])
  | s, stmt :: rest =>
    match eng.execute s stmt with
    | .error msg => .error (.clientResponseError msg)
    | .ok (s1, cur) =>
      match processCursor cur with
      | .error e => .error e
      | .ok rs =>
        match execStmts eng s1 rest with
        | .error e => .error e
        | .ok (s2, rsets) => .ok (s2, rs :: rsets)

/-- The embedded `_batch(conn, stmts)`: first `conn.rollback()` (outside the
`try` block, so its `DatabaseError` propagates unwrapped), then the statement
loop. -/
def _batch (eng : Engine σ V) (conn : σ) (stmts : List (RawStmt V)) :
    Except DriverError (σ × List (ResultSet V)) :=
  match eng.rollback conn with
  | .error msg => .error (.databaseError msg)
  | .ok s => execStmts eng s stmts

/-- Modelled from the spec: the `Row` class of `result.py` is not under
`src/`; per the spec a Row is "a fixed-size ordered sequence of column values
plus a lookup structure mapping column name → positional index", and looking a
value up by column name resolves the name through that lookup structure and
then indexes the value sequence by position. -/
def Row.getByName (row : Row V) (name : String) : Option V :=
  (dictLookup row.column_idxs name).bind (fun i => row.values.get? i)

/-- Positional lookup of a value in a row. -/
def Row.getByIndex (row : Row V) (i : Nat) : Option V :=
  row.values.get? i

/-! ### Concrete engines for concrete evaluations

`tEngine` is a miniature sqlite over a single table `t(id)` whose state is the
list of its rows.  Its behaviour matches CPython sqlite3 on the statements it
recognises: the connection is opened with `isolation_level=None` (autocommit),
so `rollback` is a no-op that succeeds; `description` is `None` for CREATE and
INSERT and the list of projected column names for SELECT; an unrecognised
statement fails with a `DatabaseError`. -/

/-- Statement `CREATE TABLE t(id)`. -/
def createStmt : RawStmt Int := RawStmt.mk "CREATE TABLE t(id)" []

/-- Statement `INSERT INTO t VALUES (1)`. -/
def insertStmt : RawStmt Int := RawStmt.mk "INSERT INTO t VALUES (1)" []

/-- Statement `SELECT * FROM t`. -/
def selectStmt : RawStmt Int := RawStmt.mk "SELECT * FROM t" []

/-- Statement `SELECT 1 AS a, 2 AS a` (duplicate projected column name). -/
def dupStmt : RawStmt Int := RawStmt.mk "SELECT 1 AS a, 2 AS a" []

/-- Statement `SELECT * FROM missing`, which the engine rejects. -/
def badStmt : RawStmt Int := RawStmt.mk "SELECT * FROM missing" []

/-- Miniature sqlite engine over table `t(id)`; state = rows of `t`. -/
def tEngine : Engine (List Int) Int where
  rollback := fun s => .ok s
  execute := fun s stmt =>
    if stmt.sql = "CREATE TABLE t(id)" then
      .ok (s, Cursor.mk none [])
    else if stmt.sql = "INSERT INTO t VALUES (1)" then
      .ok (s ++ [1], Cursor.mk none [])
    else if stmt.sql = "SELECT * FROM t" then
      .ok (s, Cursor.mk (some ["id"]) (s.map (fun v => [v])))
    else if stmt.sql = "SELECT 1 AS a, 2 AS a" then
      .ok (s, Cursor.mk (some ["a", "a"]) [[1, 2]])
    else
      .error "no such table: missing"

/-- An engine whose rollback raises a `DatabaseError` (e.g. disk I/O error
during rollback); used to test the rollback-failure path. -/
def rbFailEngine : Engine Unit Int where
  rollback := fun _ => .error "disk I/O error"
  execute := fun s _ => .ok (s, Cursor.mk (some []) [])

/-- An operation performed on the connection handle, for trace-based
theorems. -/
inductive Op (V : Type) where
  | rollback
  | exec (stmt : RawStmt V)
  deriving Repr, DecidableEq

/-- An engine whose state is the list of operations performed on the handle so
far; every operation succeeds and SELECT-like empty cursors are returned.
Used to observe the order in which `_batch` touches the handle. -/
def logEngine (V : Type) : Engine (List (Op V)) V where
  rollback := fun log => .ok (log ++ [Op.rollback])
  execute := fun log stmt => .ok (log ++ [Op.exec stmt], Cursor.mk (some []) [])

/-- The sequence of operations `_batch` performs on the handle when run
against the logging engine starting from an empty log. -/
def batchTrace (stmts : List (RawStmt V)) : List (Op V) :=
  match _batch (logEngine V) [] stmts with
  | .ok (log, _) => log
  | .error _ => []

end SqliteDriver



namespace SqliteDriver

universe u

variable {σ : Type u} {V : Type}

/-! ### Inversion and unfolding lemmas for the statement loop -/

theorem execStmts_nil (eng : Engine σ V) (s : σ) : execStmts eng s [] = .ok (s, []) := rfl

theorem execStmts_cons_ok {eng : Engine σ V} {s s2 : σ} {stmt : RawStmt V}
    {rest : List (RawStmt V)} {rsets : List (ResultSet V)}
    (h : execStmts eng s (stmt :: rest) = .ok (s2, rsets)) :
    ∃ s1 cur rs rsets1,
      eng.execute s stmt = .ok (s1, cur) ∧ processCursor cur = .ok rs ∧
      execStmts eng s1 rest = .ok (s2, rsets1) ∧ rsets = rs :: rsets1 := by
  cases hex : eng.execute s stmt with
  | error msg => simp [execStmts, hex] at h
  | ok p =>
    obtain ⟨s1, cur⟩ := p
    cases hpc : processCursor cur with
    | error e => simp [execStmts, hex, hpc] at h
    | ok rs =>
      cases hrec : execStmts eng s1 rest with
      | error e => simp [execStmts, hex, hpc, hrec] at h
      | ok q =>
        obtain ⟨s2x, rsets1⟩ := q
        simp only [execStmts, hex, hpc, hrec, Except.ok.injEq, Prod.mk.injEq] at h
        exact ⟨s1, cur, rs, rsets1, rfl, hpc, by rw [hrec, h.1], h.2.symm⟩

theorem execStmts_cons_of_parts {eng : Engine σ V} {s s1 s2 : σ} {stmt : RawStmt V}
    {rest : List (RawStmt V)} {cur : Cursor V} {rs : ResultSet V}
    {rsets1 : List (ResultSet V)}
    (hex : eng.execute s stmt = .ok (s1, cur)) (hpc : processCursor cur = .ok rs)
    (hrec : execStmts eng s1 rest = .ok (s2, rsets1)) :
    execStmts eng s (stmt :: rest) = .ok (s2, rs :: rsets1) := by
  simp [execStmts, hex, hpc, hrec]

/-- If the whole loop succeeds, its result sets have one entry per statement,
and the i-th entry is exactly the processed cursor obtained by executing the
i-th statement in the engine state reached after the first i statements. -/
theorem execStmts_ok_spec {eng : Engine σ V} :
    ∀ {stmts : List (RawStmt V)} {s s2 : σ} {rsets : List (ResultSet V)},
      execStmts eng s stmts = .ok (s2, rsets) →
      rsets.length = stmts.length ∧
      ∀ i, i < stmts.length →
        ∃ stmt si si1 cur rs,
          stmts.get? i = some stmt ∧
          execStmts eng s (stmts.take i) = .ok (si, rsets.take i) ∧
          eng.execute si stmt = .ok (si1, cur) ∧
          processCursor cur = .ok rs ∧
          rsets.get? i = some rs := by
  intro stmts
  induction stmts with
  | nil =>
    intro s s2 rsets h
    simp only [execStmts, Except.ok.injEq, Prod.mk.injEq] at h
    refine ⟨by simp [← h.2], ?_⟩
    intro i hi
    simp at hi
  | cons stmt rest ih =>
    intro s s2 rsets h
    obtain ⟨s1, cur, rs, rsets1, hex, hpc, hrec, hrsets⟩ := execStmts_cons_ok h
    obtain ⟨ihlen, ihget⟩ := ih hrec
    subst hrsets
    refine ⟨by simp [ihlen], ?_⟩
    intro i hi
    cases i with
    | zero =>
      exact ⟨stmt, s, s1, cur, rs, rfl, by simp [execStmts_nil], hex, hpc, rfl⟩
    | succ j =>
      have hj : j < rest.length := by
        simpa [Nat.succ_lt_succ_iff] using hi
      obtain ⟨stmtj, si, si1, curj, rsj, hget, htake, hexj, hpcj, hrsj⟩ := ihget j hj
      refine ⟨stmtj, si, si1, curj, rsj, by simpa using hget, ?_, hexj, hpcj, by simpa using hrsj⟩
      have : (stmt :: rest).take (j + 1) = stmt :: rest.take j := rfl
      rw [this]
      have : (rs :: rsets1).take (j + 1) = rs :: rsets1.take j := rfl
      rw [this]
      exact execStmts_cons_of_parts hex hpc htake

/-- Running the loop over `pre ++ rest` after `pre` succeeds is the loop over
`rest` started in the state `pre` reached, with the result sets of `pre`
prepended. -/
theorem execStmts_append_ok {eng : Engine σ V} :
    ∀ {pre : List (RawStmt V)} {s s1 : σ} {rs1 : List (ResultSet V)}
      {rest : List (RawStmt V)},
      execStmts eng s pre = .ok (s1, rs1) →
      execStmts eng s (pre ++ rest) =
        match execStmts eng s1 rest with
        | .error e => .error e
        | .ok (s2, rs2) => .ok (s2, rs1 ++ rs2) := by
  intro pre
  induction pre with
  | nil =>
    intro s s1 rs1 rest h
    simp only [execStmts, Except.ok.injEq, Prod.mk.injEq] at h
    obtain ⟨hs, hrs⟩ := h
    subst hs; subst hrs
    cases hr : execStmts eng s rest with
    | error e => simp [hr]
    | ok q => obtain ⟨s2, rs2⟩ := q; simp [hr]
  | cons p pre ih =>
    intro s s1 rs1 rest h
    obtain ⟨sa, cur, rs, rsets1, hex, hpc, hrec, hrs1⟩ := execStmts_cons_ok h
    subst hrs1
    have hmid := @ih sa s1 rsets1 rest hrec
    simp only [List.cons_append, execStmts, hex, hpc, List.append_eq]
    rw [hmid]
    cases hr : execStmts eng s1 rest with
    | error e => simp
    | ok q => obtain ⟨s2, rs2⟩ := q; simp

/-- Inversion of a successful `_batch`: the rollback succeeded and the loop
ran from the rolled-back state. -/
theorem batch_ok_inv {eng : Engine σ V} {conn s2 : σ} {stmts : List (RawStmt V)}
    {rsets : List (ResultSet V)}
    (h : _batch eng conn stmts = .ok (s2, rsets)) :
    ∃ s0, eng.rollback conn = .ok s0 ∧ execStmts eng s0 stmts = .ok (s2, rsets) := by
  cases hrb : eng.rollback conn with
  | error msg => simp [_batch, hrb] at h
  | ok s0 =>
    refine ⟨s0, rfl, ?_⟩
    simpa [_batch, hrb] using h

end SqliteDriver

namespace SqliteDriver

universe v

variable {σ : Type v} {V : Type}

/-! ### Lemmas about the name-to-index dict -/

theorem dictLookup_enumFrom_eq_none (name : String) :
    ∀ (cols : List String) (n : Nat), name ∉ cols →
      dictLookup ((List.enumFrom n cols).map (fun p => (p.2, p.1))) name = none := by
  intro cols
  induction cols with
  | nil => intro n _; rfl
  | cons c cs ih =>
    intro n h
    have hc : name ≠ c := fun hx => h (by simp [hx])
    have hcs : name ∉ cs := fun hx => h (by simp [hx])
    simp [List.enumFrom, dictLookup, ih (n + 1) hcs, hc]

theorem dictLookup_enumFrom_isSome (name : String) :
    ∀ (cols : List String) (n : Nat), name ∈ cols →
      ∃ i, dictLookup ((List.enumFrom n cols).map (fun p => (p.2, p.1))) name = some i := by
  intro cols
  induction cols with
  | nil => intro n h; simp at h
  | cons c cs ih =>
    intro n h
    by_cases hmem : name ∈ cs
    · obtain ⟨i, hi⟩ := ih (n + 1) hmem
      exact ⟨i, by simp [List.enumFrom, dictLookup, hi]⟩
    · have hc : name = c := by
        rcases List.mem_cons.mp h with h1 | h1
        · exact h1
        · exact absurd h1 hmem
      subst hc
      refine ⟨n, ?_⟩
      simp [List.enumFrom, dictLookup, dictLookup_enumFrom_eq_none name cs (n + 1) hmem]

/-- A `some i` answer of the dict built from `enumFrom n cols` points at the
LAST occurrence of the name: position `i - n` holds the name and no later
position does. -/
theorem dictLookup_enumFrom_last (name : String) :
    ∀ (cols : List String) (n i : Nat),
      dictLookup ((List.enumFrom n cols).map (fun p => (p.2, p.1))) name = some i →
      ∃ k, i = n + k ∧ cols.get? k = some name ∧ ∀ j, k < j → cols.get? j ≠ some name := by
  intro cols
  induction cols with
  | nil => intro n i h; simp [List.enumFrom, dictLookup] at h
  | cons c cs ih =>
    intro n i h
    simp only [List.enumFrom, List.map_cons] at h
    cases hrec : dictLookup ((List.enumFrom (n + 1) cs).map (fun p => (p.2, p.1))) name with
    | some r =>
      rw [dictLookup, hrec] at h
      simp only [Option.some.injEq] at h
      subst h
      obtain ⟨k, hk, hget, hlast⟩ := ih (n + 1) r hrec
      refine ⟨k + 1, by omega, by simpa using hget, ?_⟩
      intro j hj
      cases j with
      | zero => omega
      | succ jx => simpa using hlast jx (by omega)
    | none =>
      rw [dictLookup, hrec] at h
      by_cases hc : name = c
      · subst hc
        rw [if_pos rfl] at h
        have hni : n = i := Option.some.inj h
        subst hni
        refine ⟨0, by omega, by simp, ?_⟩
        intro j hj hcontra
        cases j with
        | zero => omega
        | succ jx =>
          have hmem : name ∈ cs := List.get?_mem (by simpa using hcontra)
          obtain ⟨r, hr⟩ := dictLookup_enumFrom_isSome name cs (n + 1) hmem
          rw [hr] at hrec
          exact Option.noConfusion hrec
      · rw [if_neg hc] at h
        exact Option.noConfusion h

theorem dictLookup_columnIdxs_isSome {columns : List String} {name : String}
    (h : name ∈ columns) : ∃ i, dictLookup (columnIdxs columns) name = some i :=
  dictLookup_enumFrom_isSome name columns 0 h

/-- The dict built by `_batch` maps a name to the index of its last occurrence
in the column list: that index bears the name and no later index does. -/
theorem dictLookup_columnIdxs_last {columns : List String} {name : String} {i : Nat}
    (h : dictLookup (columnIdxs columns) name = some i) :
    columns.get? i = some name ∧ ∀ j, i < j → columns.get? j ≠ some name := by
  obtain ⟨k, hk, hget, hlast⟩ := dictLookup_enumFrom_last name columns 0 i h
  have : i = k := by omega
  subst this
  exact ⟨hget, hlast⟩

/-! ### Shape of the result sets a successful loop produces -/

theorem processCursor_ok_inv {cur : Cursor V} {rs : ResultSet V}
    (h : processCursor cur = .ok rs) :
    cur.description = some rs.columns ∧
    rs.rows = cur.rows.map (fun r => Row.mk (columnIdxs rs.columns) r) := by
  cases hd : cur.description with
  | none => simp [processCursor, hd] at h
  | some columns =>
    simp only [processCursor, hd, Except.ok.injEq] at h
    subst h
    exact ⟨rfl, rfl⟩

theorem execStmts_mem_processCursor {eng : Engine σ V} :
    ∀ {stmts : List (RawStmt V)} {s s2 : σ} {rsets : List (ResultSet V)},
      execStmts eng s stmts = .ok (s2, rsets) →
      ∀ rs ∈ rsets, ∃ cur, processCursor cur = .ok rs := by
  intro stmts
  induction stmts with
  | nil =>
    intro s s2 rsets h
    simp only [execStmts, Except.ok.injEq, Prod.mk.injEq] at h
    intro rs hrs
    rw [← h.2] at hrs
    simp at hrs
  | cons stmt rest ih =>
    intro s s2 rsets h
    obtain ⟨s1, cur, rs0, rsets1, hex, hpc, hrec, hrsets⟩ := execStmts_cons_ok h
    subst hrsets
    intro rs hrs
    rcases List.mem_cons.mp hrs with h1 | h1
    · exact ⟨cur, h1 ▸ hpc⟩
    · exact ih hrec rs h1

/-- Every row of every result set of a successful loop carries the dict built
from that result set's own column list (the dict is shared per statement). -/
theorem execStmts_row_column_idxs {eng : Engine σ V} {stmts : List (RawStmt V)}
    {s s2 : σ} {rsets : List (ResultSet V)}
    (h : execStmts eng s stmts = .ok (s2, rsets)) :
    ∀ rs ∈ rsets, ∀ row ∈ rs.rows, row.column_idxs = columnIdxs rs.columns := by
  intro rs hrs row hrow
  obtain ⟨cur, hcur⟩ := execStmts_mem_processCursor h rs hrs
  obtain ⟨-, hrows⟩ := processCursor_ok_inv hcur
  rw [hrows] at hrow
  simp only [List.mem_map] at hrow
  obtain ⟨r, -, hr⟩ := hrow
  rw [← hr]

/-! ### Trace of operations against the logging engine -/

theorem execStmts_logEngine (V : Type) :
    ∀ (stmts : List (RawStmt V)) (log : List (Op V)),
      execStmts (logEngine V) log stmts =
        .ok (log ++ stmts.map Op.exec, stmts.map (fun _ => ResultSet.mk [] [])) := by
  intro stmts
  induction stmts with
  | nil => intro log; simp [execStmts]
  | cons stmt rest ih =>
    intro log
    have hstep : (logEngine V).execute log stmt =
        .ok (log ++ [Op.exec stmt], Cursor.mk (some []) []) := rfl
    have hpc : processCursor (Cursor.mk (some []) ([] : List (List V))) =
        .ok (ResultSet.mk [] []) := rfl
    have hc := execStmts_cons_of_parts hstep hpc (ih (log ++ [Op.exec stmt]))
    simp [hc, List.append_assoc]

/-! ### The claims -/

/-- C1 counterexample: in the batch `[CREATE TABLE t(id)]` the only statement
executes successfully on the engine, yet `_batch` does not return any
result-set sequence: iterating the `None` cursor description raises
`TypeError`. -/
theorem batch_allOk_cex :
    tEngine.execute [] createStmt = .ok ([], Cursor.mk none []) ∧
    _batch tEngine [] [createStmt] = .error .typeError :=
  ⟨rfl, rfl⟩

/-- C1 (amended): whenever `_batch` returns successfully, the returned
result-set sequence has exactly the length of the input statement sequence,
and the i-th result set is the one produced by executing the i-th statement
(in the state reached after the previous statements) and processing its
cursor. -/
theorem batch_allOk_length_order {σ : Type v} {V : Type} {eng : Engine σ V}
    {conn sEnd : σ} {stmts : List (RawStmt V)} {rsets : List (ResultSet V)}
    (h : _batch eng conn stmts = .ok (sEnd, rsets)) :
    rsets.length = stmts.length ∧
    ∃ s0, eng.rollback conn = .ok s0 ∧
      ∀ i, i < stmts.length →
        ∃ stmt si si1 cur rs,
          stmts.get? i = some stmt ∧
          execStmts eng s0 (stmts.take i) = .ok (si, rsets.take i) ∧
          eng.execute si stmt = .ok (si1, cur) ∧
          processCursor cur = .ok rs ∧
          rsets.get? i = some rs := by
  obtain ⟨s0, hrb, hloop⟩ := batch_ok_inv h
  obtain ⟨hlen, hget⟩ := execStmts_ok_spec hloop
  exact ⟨hlen, s0, hrb, hget⟩

/-- Witness for the amended C1 at a concrete successful batch. -/
theorem batch_allOk_length_order_witness :
    ([ResultSet.mk ["id"] [Row.mk [("id", 0)] [(7 : Int)]]].length =
      [selectStmt].length) ∧
    ∃ s0, tEngine.rollback [7] = .ok s0 ∧
      ∀ i, i < [selectStmt].length →
        ∃ stmt si si1 cur rs,
          [selectStmt].get? i = some stmt ∧
          execStmts tEngine s0 ([selectStmt].take i) =
            .ok (si, [ResultSet.mk ["id"] [Row.mk [("id", 0)] [(7 : Int)]]].take i) ∧
          tEngine.execute si stmt = .ok (si1, cur) ∧
          processCursor cur = .ok rs ∧
          [ResultSet.mk ["id"] [Row.mk [("id", 0)] [(7 : Int)]]].get? i = some rs :=
  @batch_allOk_length_order _ _ tEngine [7] [7] [selectStmt]
    [ResultSet.mk ["id"] [Row.mk [("id", 0)] [7]]] rfl

/-- C2 counterexample: the batch `[INSERT INTO t VALUES (1), SELECT * FROM
missing]` contains a failing statement (the second, which the engine rejects),
yet the call raises `TypeError` from the first statement's `None` description,
not a client response error carrying the engine's message. -/
theorem batch_firstFailure_cex :
    tEngine.execute [] insertStmt = .ok ([1], Cursor.mk none []) ∧
    tEngine.execute [1] badStmt = .error "no such table: missing" ∧
    _batch tEngine [] [insertStmt, badStmt] = .error .typeError :=
  ⟨rfl, rfl, rfl⟩

/-- C2 (amended): if the statements before a failing statement all execute and
process successfully, `_batch` of the batch extended by the failing statement
and ANY further statements raises exactly the client response error carrying
the engine's message for that first failing statement; no result set is
returned and the trailing statements are irrelevant. -/
theorem batch_firstFailure {σ : Type v} {V : Type} {eng : Engine σ V}
    {conn s0 s1 : σ} {pre : List (RawStmt V)} {rs1 : List (ResultSet V)}
    {fstmt : RawStmt V} {msg : String}
    (hrb : eng.rollback conn = .ok s0)
    (hpre : execStmts eng s0 pre = .ok (s1, rs1))
    (hfail : eng.execute s1 fstmt = .error msg) :
    ∀ post, _batch eng conn (pre ++ fstmt :: post) =
      .error (.clientResponseError msg) := by
  intro post
  have happ := @execStmts_append_ok _ _ eng pre s0 s1 rs1 (fstmt :: post) hpre
  simp only [_batch, hrb]
  rw [happ]
  simp [execStmts, hfail]

/-- Witness for the amended C2: a concrete batch whose second statement fails
aborts with the engine's message, and the trailing INSERT is never reached. -/
theorem batch_firstFailure_witness :
    _batch tEngine [] ([selectStmt] ++ badStmt :: [insertStmt]) =
      .error (.clientResponseError "no such table: missing") :=
  @batch_firstFailure _ _ tEngine [] [] [] [selectStmt]
    [ResultSet.mk ["id"] []] badStmt "no such table: missing" rfl rfl rfl [insertStmt]

/-- C4: evaluation of the spec scenario on the embedded code.  The batch
`[INSERT INTO t VALUES (1)]` on the empty table does NOT return one empty
result set: `cursor.description` is `None` for an INSERT, so `_batch` raises
`TypeError`.  Once the table holds the row 1, the batch `[SELECT * FROM t]`
does return one result set with column list `["id"]` and the single row
`[1]`. -/
theorem batch_insert_select_scenario :
    _batch tEngine [] [insertStmt] = .error .typeError ∧
    _batch tEngine [1] [selectStmt] =
      .ok ([1], [ResultSet.mk ["id"] [Row.mk [("id", 0)] [1]]]) :=
  ⟨rfl, rfl⟩

/-- C5 counterexample: when the leading rollback fails, `_batch` surfaces the
raw engine database error, which is NOT the unified client response error:
`conn.rollback()` sits outside the `try/except` wrapping statement
execution. -/
theorem rollback_failure_cex :
    _batch rbFailEngine () [] = .error (.databaseError "disk I/O error") ∧
    DriverError.databaseError "disk I/O error" ≠
      DriverError.clientResponseError "disk I/O error" :=
  ⟨rfl, by decide⟩

/-- C5 (amended): a failing leading rollback aborts the batch and surfaces the
engine's native database error unwrapped, whatever the statement list. -/
theorem rollback_failure_unwrapped {σ : Type v} {V : Type} {eng : Engine σ V}
    {conn : σ} {msg : String} (stmts : List (RawStmt V))
    (h : eng.rollback conn = .error msg) :
    _batch eng conn stmts = .error (.databaseError msg) := by
  simp [_batch, h]

/-- Witness for the amended C5 at a concrete engine with a failing rollback. -/
theorem rollback_failure_unwrapped_witness :
    _batch rbFailEngine () [insertStmt] = .error (.databaseError "disk I/O error") :=
  @rollback_failure_unwrapped _ _ rbFailEngine () "disk I/O error" [insertStmt] rfl

/-- C6: for every statement list, including the empty one, the sequence of
operations `_batch` performs on the handle is the rollback FIRST, followed by
exactly the statement executions in submission order: the leading rollback is
unconditional and precedes the first statement. -/
theorem batch_rollback_first (V : Type) (stmts : List (RawStmt V)) :
    batchTrace stmts = Op.rollback :: stmts.map Op.exec := by
  have h : _batch (logEngine V) [] stmts =
      .ok ([Op.rollback] ++ stmts.map Op.exec,
        stmts.map (fun _ => ResultSet.mk [] [])) := by
    calc _batch (logEngine V) [] stmts
        = execStmts (logEngine V) [Op.rollback] stmts := rfl
      _ = _ := execStmts_logEngine V stmts [Op.rollback]
  simp [batchTrace, h]

/-- C7: for every result set of a successful `_batch` and every row in it,
looking a value up by a column name that occurs in the result set's column
list yields the same value as looking it up by that column's positional index:
there is an index bearing the name at which the two lookups agree. -/
theorem batch_name_lookup_eq_index_lookup {σ : Type v} {V : Type}
    {eng : Engine σ V} {conn sEnd : σ} {stmts : List (RawStmt V)}
    {rsets : List (ResultSet V)} {rs : ResultSet V} {row : Row V} {name : String}
    (hb : _batch eng conn stmts = .ok (sEnd, rsets))
    (hrs : rs ∈ rsets) (hrow : row ∈ rs.rows) (hname : name ∈ rs.columns) :
    ∃ i, rs.columns.get? i = some name ∧ row.getByName name = row.getByIndex i := by
  obtain ⟨s0, hrb, hloop⟩ := batch_ok_inv hb
  have hdict := execStmts_row_column_idxs hloop rs hrs row hrow
  obtain ⟨i, hi⟩ := dictLookup_columnIdxs_isSome hname
  refine ⟨i, (dictLookup_columnIdxs_last hi).1, ?_⟩
  simp [Row.getByName, Row.getByIndex, hdict, hi]

/-- Witness for C7 on a concrete SELECT result. -/
theorem batch_name_lookup_eq_index_lookup_witness :
    ∃ i, (["id"] : List String).get? i = some "id" ∧
      (Row.mk [("id", 0)] [(7 : Int)]).getByName "id" =
        (Row.mk [("id", 0)] [(7 : Int)]).getByIndex i :=
  @batch_name_lookup_eq_index_lookup _ _ tEngine [7] [7] [selectStmt]
    [ResultSet.mk ["id"] [Row.mk [("id", 0)] [7]]]
    (ResultSet.mk ["id"] [Row.mk [("id", 0)] [7]]) (Row.mk [("id", 0)] [7]) "id"
    rfl (List.mem_singleton.mpr rfl) (List.mem_singleton.mpr rfl)
    (List.mem_singleton.mpr rfl)

/-- C9: in any result set of a successful `_batch`, the name-to-index dict
maps a name to the index of its LAST occurrence in the column list (that index
bears the name and no later index does), and a by-name lookup on any of the
result set's rows returns the value at that last position. -/
theorem batch_duplicate_name_last_occurrence {σ : Type v} {V : Type}
    {eng : Engine σ V} {conn sEnd : σ} {stmts : List (RawStmt V)}
    {rsets : List (ResultSet V)} {rs : ResultSet V} {row : Row V}
    {name : String} {i : Nat}
    (hb : _batch eng conn stmts = .ok (sEnd, rsets))
    (hrs : rs ∈ rsets) (hrow : row ∈ rs.rows)
    (hl : dictLookup row.column_idxs name = some i) :
    rs.columns.get? i = some name ∧
    (∀ j, i < j → rs.columns.get? j ≠ some name) ∧
    row.getByName name = row.values.get? i := by
  obtain ⟨s0, hrb, hloop⟩ := batch_ok_inv hb
  have hdict := execStmts_row_column_idxs hloop rs hrs row hrow
  rw [hdict] at hl
  obtain ⟨h1, h2⟩ := dictLookup_columnIdxs_last hl
  refine ⟨h1, h2, ?_⟩
  simp [Row.getByName, hdict, hl]

/-- Witness for C9 on the duplicate-column SELECT: the name maps to index 1,
the last of the two positions named `a`, and by-name lookup returns the value
there. -/
theorem batch_duplicate_name_last_occurrence_witness :
    (["a", "a"] : List String).get? 1 = some "a" ∧
    (∀ j, 1 < j → (["a", "a"] : List String).get? j ≠ some "a") ∧
    (Row.mk [("a", 0), ("a", 1)] [(1 : Int), 2]).getByName "a" =
      (Row.mk [("a", 0), ("a", 1)] [(1 : Int), 2]).values.get? 1 :=
  @batch_duplicate_name_last_occurrence _ _ tEngine [] [] [dupStmt]
    [ResultSet.mk ["a", "a"] [Row.mk [("a", 0), ("a", 1)] [1, 2]]]
    (ResultSet.mk ["a", "a"] [Row.mk [("a", 0), ("a", 1)] [1, 2]])
    (Row.mk [("a", 0), ("a", 1)] [1, 2]) "a" 1
    rfl (List.mem_singleton.mpr rfl) (List.mem_singleton.mpr rfl) rfl

/-- C10: a batch with an empty statement list performs the leading rollback
and succeeds with the empty result-set sequence: `_batch` returns exactly the
rolled-back handle state paired with no result sets. -/
theorem batch_empty_ok {σ : Type v} {V : Type} {eng : Engine σ V}
    {conn s0 : σ} (h : eng.rollback conn = .ok s0) :
    _batch eng conn ([] : List (RawStmt V)) = .ok (s0, []) := by
  simp [_batch, h, execStmts]

/-- Witness for C10 on the concrete engine. -/
theorem batch_empty_ok_witness :
    _batch tEngine [5] ([] : List (RawStmt Int)) = .ok ([5], []) :=
  @batch_empty_ok _ _ tEngine [5] [5] rfl

end SqliteDriver
